import Mathlib

/-!
Verification of the Cerebrus PR-validation engine.

Strings from the JavaScript source are modelled as `List Char` (`Str`); the
JS regex operations used by the code (`RegExp.test`, `String.replace` with a
global lazy span regex, `String.trim`, `String.split`, `String.includes`,
`{key}` template interpolation and the fixed path/validation patterns) are
embedded as executable functions below, each translated from the concrete
regex it models.
-/

set_option maxRecDepth 10000

namespace Cerebrus

/-- Character lists stand in for JavaScript strings. -/
abbrev Str := List Char

/-- Convert a Lean string literal to the `List Char` model. -/
def str (s : String) : Str := s.toList

/-- `startsWith text pat` : `pat` is a prefix of `text` (JS `String.startsWith`,
and the primitive used to model regex literal matching). -/
def startsWith : Str → Str → Bool
  | _, [] => true
  | [], _ :: _ => false
  | c :: cs, p :: ps => if c = p then startsWith cs ps else false

/-- Index of the first occurrence of `pat` in `text` (leftmost position where
`pat` is a prefix of the corresponding suffix), as computed by a JS regex
scan for a literal. -/
def findMarker (pat : Str) : Str → Option Nat
  | [] => if startsWith [] pat then some 0 else none
  | c :: cs =>
    if startsWith (c :: cs) pat then some 0
    else (findMarker pat cs).map (· + 1)

/-- `pat` occurs somewhere in `text` (JS `String.includes`). -/
def occursB (pat text : Str) : Bool := (findMarker pat text).isSome

/-- `new RegExp(S + "[\\s\\S]*?" + E).test(text)`: the body contains a
start-marker occurrence with an end-marker occurrence after it.  Testing the
first start occurrence suffices: if no end marker follows it, none follows
any later start occurrence either. -/
def containsSpan (S E text : Str) : Bool :=
  match findMarker S text with
  | none => false
  | some i => (findMarker E (List.drop (i + S.length) text)).isSome

/-- One pass of `text.replace(new RegExp(S + "[\\s\\S]*?" + E, "g"), repl)`:
repeatedly find the leftmost `S...E` span (lazy: up to the first `E` after
the `S`), replace it with `repl`, and continue after the replaced span.
`fuel` bounds the recursion; `spanReplace` supplies `text.length`, which is
sufficient for the non-empty markers used by the source. -/
def spanReplaceGo (S E repl : Str) : Nat → Str → Str
  | 0, text => text
  | fuel + 1, text =>
    match findMarker S text with
    | none => text
    | some i =>
      match findMarker E (List.drop (i + S.length) text) with
      | none => text
      | some j =>
        List.take i text ++ repl ++
          spanReplaceGo S E repl fuel
            (List.drop (j + E.length) (List.drop (i + S.length) text))

/-- Global lazy span replacement, as performed by `replaceOrAppendSection`. -/
def spanReplace (S E repl text : Str) : Str :=
  spanReplaceGo S E repl text.length text

/-- Count of the non-overlapping spans found by the same global scan. -/
def countSpansGo (S E : Str) : Nat → Str → Nat
  | 0, _ => 0
  | fuel + 1, text =>
    match findMarker S text with
    | none => 0
    | some i =>
      match findMarker E (List.drop (i + S.length) text) with
      | none => 0
      | some j =>
        1 + countSpansGo S E fuel
              (List.drop (j + E.length) (List.drop (i + S.length) text))

/-- Number of `S...E` spans matched by the global scan over `text`. -/
def countSpans (S E text : Str) : Nat := countSpansGo S E text.length text

/-- Number of (possibly overlapping) occurrences of `pat` in `text`. -/
def countOccur (pat : Str) : Str → Nat
  | [] => 0
  | c :: cs => (if startsWith (c :: cs) pat then 1 else 0) + countOccur pat cs

/-- Characters removed by JS `String.trim` (the code trims ASCII text). -/
def isJsWs (c : Char) : Bool :=
  c = ' ' || c = '\t' || c = '\n' || c = '\r' || c = '\x0b' || c = '\x0c'

/-- JS `String.trim`: strip whitespace from both ends. -/
def jsTrim (s : Str) : Str :=
  ((s.dropWhile isJsWs).reverse.dropWhile isJsWs).reverse

/-- One pass of `text.replace(new RegExp(S + "[\\s\\S]*?" + E + "\\n*", "g"), "")`
used by `removeSection`: delete each span together with the newline run that
follows it. -/
def removeSpansGo (S E : Str) : Nat → Str → Str
  | 0, text => text
  | fuel + 1, text =>
    match findMarker S text with
    | none => text
    | some i =>
      match findMarker E (List.drop (i + S.length) text) with
      | none => text
      | some j =>
        List.take i text ++
          removeSpansGo S E fuel
            (List.dropWhile (fun c => c = '\n')
              (List.drop (j + E.length) (List.drop (i + S.length) text)))

/-- Global span removal (before the final trim of `removeSection`). -/
def removeSpans (S E text : Str) : Str := removeSpansGo S E text.length text

/-- `CEREBRUS_IDENTIFIER` from `validate-rules.js`. -/
def CEREBRUS_IDENTIFIER : Str := str "<!-- Cerebrus PR report -->"

/-- `PATH_VALIDATION_SECTION_START` from `validate-rules.js`. -/
def PATH_VALIDATION_SECTION_START : Str := str "<!-- Path Validation Section -->"

/-- `PATH_VALIDATION_SECTION_END` from `validate-rules.js`. -/
def PATH_VALIDATION_SECTION_END : Str := str "<!-- End Path Validation Section -->"

/-- The `"\n\n"` separator the source interpolates between body and section. -/
def nl2 : Str := str "\n\n"

/-- `` `${PATH_VALIDATION_SECTION_START}\n${pathMessage}\n${PATH_VALIDATION_SECTION_END}` ``:
wrap section content in the path-validation marker pair. -/
def sectionedMessage (content : Str) : Str :=
  PATH_VALIDATION_SECTION_START ++ '\n' :: content ++ '\n' :: PATH_VALIDATION_SECTION_END

/-- `replaceOrAppendSection(existingBody, newSection)` from `validate-rules.js`:
replace the path-validation span(s) if the section regex matches, otherwise
append the new section after a blank line. -/
def replaceOrAppendSection (existingBody newSection : Str) : Str :=
  if containsSpan PATH_VALIDATION_SECTION_START PATH_VALIDATION_SECTION_END existingBody then
    spanReplace PATH_VALIDATION_SECTION_START PATH_VALIDATION_SECTION_END newSection existingBody
  else
    existingBody ++ nl2 ++ newSection

/-- `removeSection(existingBody, sectionStart, sectionEnd)` from
`validate-rules.js`: delete the span(s) plus trailing newlines, then trim. -/
def removeSection (existingBody sectionStart sectionEnd : Str) : Str :=
  jsTrim (removeSpans sectionStart sectionEnd existingBody)

/-- The fresh comment created when no Cerebrus comment exists:
`` `${CEREBRUS_IDENTIFIER}\n\n${sectionedMessage}` ``. -/
def freshComment (content : Str) : Str :=
  CEREBRUS_IDENTIFIER ++ nl2 ++ sectionedMessage content

/-! ## Rule evaluation (`applyRules` / `processRule` in `validate-rules.js`) -/

/-- A declarative rule from `rules.js`: a name, a pure condition over the base
branch and the changed-file list, a message, and a stop flag. -/
structure Rule where
  name : Str
  condition : Str → List Str → Bool
  message : Str
  stopProcessing : Bool

/-- The rule loop of `applyRules`: `processRule` pushes
`` `\n\n${rule.message}` `` when the condition matches and reports `true` when
a matched rule has `stopProcessing`, upon which the `for` loop sets
`abort = true` and breaks.  The returned pair is the final state of
`(messages, abort)`. -/
def applyRulesLoop (baseRef : Str) (changedFiles : List Str) : List Rule → List Str × Bool
  | [] => ([], false)
  | r :: rest =>
    if r.condition baseRef changedFiles then
      if r.stopProcessing then ([nl2 ++ r.message], true)
      else
        let p := applyRulesLoop baseRef changedFiles rest
        ((nl2 ++ r.message) :: p.1, p.2)
    else applyRulesLoop baseRef changedFiles rest

/-- The rules up to and including the first one satisfying `p`; the rules
beyond that point are the ones the evaluator never reaches. -/
def takeThrough (p : Rule → Bool) : List Rule → List Rule
  | [] => []
  | r :: rest => if p r then [r] else r :: takeThrough p rest

/-! ## Tiddler field parsing (`parseTiddlerContent` in the validation module) -/

/-- Field maps are association lists; JS object assignment keeps the original
key position and overwrites the value. -/
abbrev Fields := List (Str × Str)

/-- JS object read `fields[k]`. -/
def getField : Fields → Str → Option Str
  | [], _ => none
  | (k', v) :: rest, k => if k' = k then some v else getField rest k

/-- JS object write `fields[k] = v`: overwrite in place, else append. -/
def setField : Fields → Str → Str → Fields
  | [], k, v => [(k, v)]
  | (k', v') :: rest, k, v =>
    if k' = k then (k', v) :: rest else (k', v') :: setField rest k v

/-- JS `content.split("\n")`. -/
def jsSplit (sep : Char) : Str → List Str
  | [] => [[]]
  | c :: cs =>
    let r := jsSplit sep cs
    if c = sep then [] :: r
    else
      match r with
      | t :: ts => (c :: t) :: ts
      | [] => [[c]]

/-- `parts.join(sep)` for a list of strings. -/
def joinSep : List Str → Str → Str
  | [], _ => []
  | [x], _ => x
  | x :: y :: rest, sep => x ++ sep ++ joinSep (y :: rest) sep

/-- The per-line match `line.match(/^([^:]+):\s*(.*)$/)`: the field name is the
maximal non-empty colon-free prefix, the value is the remainder after the
colon with leading whitespace stripped by `\s*`. -/
def headerMatch (line : Str) : Option (Str × Str) :=
  let name := line.takeWhile (fun c => !(c = ':'))
  if name.isEmpty then none
  else
    match List.drop name.length line with
    | ':' :: rest => some (name, rest.dropWhile isJsWs)
    | _ => none

/-- The reserved body key `text`. -/
def textKey : Str := str "text"

/-- The header loop of `parseTiddlerContent`: on the first line that is empty
after trimming, stop and store the remaining lines (joined by newline and
trimmed) under `text`; otherwise record each `key: value` line. -/
def parseLoop : List Str → Fields → Fields
  | [], fields => fields
  | l :: rest, fields =>
    if (jsTrim l).isEmpty then
      setField fields textKey (jsTrim (joinSep rest (str "\n")))
    else
      match headerMatch l with
      | some (k, v) => parseLoop rest (setField fields k v)
      | none => parseLoop rest fields

/-- `parseTiddlerContent(content)`: `null` on empty input, otherwise the
fields parsed from the newline-split lines. -/
def parseTiddlerContent (content : Str) : Option Fields :=
  if content.isEmpty then none
  else some (parseLoop (jsSplit '\n' content) [])

/-! ## Validation configuration (`CONFIG` in the validation module) -/

/-- `[0-9]+` followed by the rest of the input: strip one-or-more digits. -/
def takeDigits (s : Str) : Option Str :=
  let ds := s.takeWhile Char.isDigit
  if ds.isEmpty then none else some (List.drop ds.length s)

/-- `[0-9]+\.[0-9]+\.[0-9]+` as a prefix: strip a dotted version number. -/
def takeVersion (s : Str) : Option Str := do
  let s ← takeDigits s
  match s with
  | '.' :: s =>
    let s ← takeDigits s
    match s with
    | '.' :: s => takeDigits s
    | _ => none
  | _ => none

/-- `CONFIG.validation.releasePattern = /^[0-9]+\.[0-9]+\.[0-9]+$/`. -/
def releasePatternTest (s : Str) : Bool :=
  match takeVersion s with
  | some [] => true
  | _ => false

/-- A lowercase hexadecimal digit, `[a-f0-9]`. -/
def isHexLower (c : Char) : Bool := c.isDigit || ('a' ≤ c && c ≤ 'f')

/-- `CONFIG.validation.titlePattern =
/^\$:\/changenotes\/[0-9]+\.[0-9]+\.[0-9]+\/(#[0-9]+|[a-f0-9]{40})$/`. -/
def titlePatternTest (s : Str) : Bool :=
  if startsWith s (str "$:/changenotes/") then
    match takeVersion (List.drop 15 s) with
    | some ('/' :: tail) =>
      (match tail with
       | '#' :: ds => !ds.isEmpty && ds.all Char.isDigit
       | _ => tail.length = 40 && tail.all isHexLower)
    | _ => false
  else false

/-- An impact identifier character, `[a-z0-9-]`. -/
def isImpactIdChar (c : Char) : Bool :=
  c.isDigit || ('a' ≤ c && c ≤ 'z') || c = '-'

/-- Scan for a decomposition `middle ++ "/impacts/" ++ ident` of the input,
where `middle` may not contain a newline (`.` does not match `\n`) and
`ident` is a non-empty `[a-z0-9-]+` run ending the string. -/
def impactTailScan : Str → Bool
  | [] => false
  | c :: cs =>
    (if startsWith (c :: cs) (str "/impacts/") then
       let ident := List.drop 9 (c :: cs)
       !ident.isEmpty && ident.all isImpactIdChar
     else false)
    || (if c = '\n' then false else impactTailScan cs)

/-- `CONFIG.validation.impactTitlePattern =
/^\$:\/changenotes\/[0-9]+\.[0-9]+\.[0-9]+\/.*\/impacts\/[a-z0-9-]+$/`. -/
def impactTitlePatternTest (s : Str) : Bool :=
  if startsWith s (str "$:/changenotes/") then
    match takeVersion (List.drop 15 s) with
    | some ('/' :: tail) => impactTailScan tail
    | _ => false
  else false

/-- The named patterns of `CONFIG.validation`. -/
inductive PatName
  | titleP
  | releaseP
  | impactTitleP
deriving DecidableEq

/-- `CONFIG.validation[name].test(value)`. -/
def patternTest : PatName → Str → Bool
  | .titleP, s => titlePatternTest s
  | .releaseP, s => releasePatternTest s
  | .impactTitleP, s => impactTitlePatternTest s

/-- The three enumeration sets named by `validValues` references. -/
inductive VVName
  | changeTypesN
  | changeCategoriesN
  | impactTypesN
deriving DecidableEq

/-- The enumeration sets loaded from `ReleasesInfo.multids`. -/
structure ReleasesInfo where
  changeTypes : List Str
  changeCategories : List Str
  impactTypes : List Str

/-- `releasesInfo[fieldConfig.validValues]`. -/
def vvGet (ri : ReleasesInfo) : VVName → List Str
  | .changeTypesN => ri.changeTypes
  | .changeCategoriesN => ri.changeCategories
  | .impactTypesN => ri.impactTypes

/-- One entry of `CONFIG.changeNoteFields` / `CONFIG.impactNoteFields`:
constructor argument order is `required`, `pattern`, `contains`,
`validValues`, `errorMessage`, `missingMessage`. -/
structure FieldConfig where
  required : Bool
  pattern : Option PatName
  contains : Option Str
  validValues : Option VVName
  errorMessage : Str
  missingMessage : Option Str

/-- A `\w` word character, `[A-Za-z0-9_]`. -/
def isWordChar (c : Char) : Bool := c.isAlphanum || c = '_'

/-- The scan of `template.replace(/\{(\w+)\}/g, cb)` where the callback maps
`value`/`validValues` to the corresponding entry when it is defined and keeps
the `{key}` text otherwise.  `fuel` bounds the recursion; the wrapper passes
the template length, which suffices since every step consumes input. -/
def interpGo (value vvs : Option Str) : Nat → Str → Str
  | 0, t => t
  | _, [] => []
  | fuel + 1, c :: rest =>
    if c = '{' then
      let w := rest.takeWhile isWordChar
      if w.isEmpty then c :: interpGo value vvs fuel rest
      else
        match List.drop w.length rest with
        | '}' :: after =>
          let sub := if w = str "value" then value
                     else if w = str "validValues" then vvs
                     else none
          (match sub with
           | some s => s ++ interpGo value vvs fuel after
           | none => c :: w ++ '}' :: interpGo value vvs fuel after)
        | _ => c :: interpGo value vvs fuel rest
    else c :: interpGo value vvs fuel rest

/-- `interpolateMessage(template, values)` with the two keys the source ever
passes (`value` may be `undefined`; `validValues` is absent in the branches
that pass only `{ value }`). -/
def interpolateMessage (template : Str) (value vvs : Option Str) : Str :=
  interpGo value vvs template.length template

/-! ## Field validation (`validateField` and the two schemas) -/

/-- JS array membership `list.includes(s)`. -/
def listMem (l : List Str) (s : Str) : Bool := l.any (fun x => x = s)

/-- The message pushed by the `required && !fieldValue` branch of
`validateField`: the missing-message (or the error message as fallback)
interpolated with the raw value and the joined enumeration set (empty string
when no `validValues` reference is declared). -/
def missingFieldMessage (v : Option Str) (cfg : FieldConfig) (ri : ReleasesInfo) : Str :=
  interpolateMessage (cfg.missingMessage.getD cfg.errorMessage) v
    (some (match cfg.validValues with
           | some n => joinSep (vvGet ri n) (str ", ")
           | none => []))

/-- The final `validValues` check of `validateField`. -/
def checkValidValues (s : Str) (cfg : FieldConfig) (ri : ReleasesInfo) : Option Str :=
  match cfg.validValues with
  | none => none
  | some n =>
    let vv := vvGet ri n
    if listMem vv s then none
    else some (interpolateMessage cfg.errorMessage (some s) (some (joinSep vv (str ", "))))

/-- The `contains` check of `validateField`, falling through to the
`validValues` check. -/
def checkContains (s : Str) (cfg : FieldConfig) (ri : ReleasesInfo) : Option Str :=
  match cfg.contains with
  | none => checkValidValues s cfg ri
  | some sub =>
    if occursB sub s then checkValidValues s cfg ri
    else some (interpolateMessage cfg.errorMessage (some s) none)

/-- The `pattern` check of `validateField`, falling through to the
`contains` check. -/
def checkPattern (s : Str) (cfg : FieldConfig) (ri : ReleasesInfo) : Option Str :=
  match cfg.pattern with
  | none => checkContains s cfg ri
  | some pn =>
    if patternTest pn s then checkContains s cfg ri
    else some (interpolateMessage cfg.errorMessage (some s) none)

/-- `validateField(fieldName, fieldValue, fieldConfig, fileErrors, releasesInfo)`:
each call pushes at most one error (every push is followed by a return),
modelled as the optional pushed message.  `none` for the value models a JS
`undefined` field; `some []` a present-but-empty one: both are falsy. -/
def validateField (v : Option Str) (cfg : FieldConfig) (ri : ReleasesInfo) : Option Str :=
  match v with
  | none => if cfg.required then some (missingFieldMessage none cfg ri) else none
  | some s =>
    if s.isEmpty then
      if cfg.required then some (missingFieldMessage (some s) cfg ri) else none
    else checkPattern s cfg ri

/-- `CONFIG.changeNoteFields`, in object-literal declaration order. -/
def changeNoteFields : List (Str × FieldConfig) :=
  [ (str "title",
     ⟨true, some .titleP, none, none,
      str "Title format: Expected `$:/changenotes/<version>/<#issue or commit-hash>`, found: `{value}`",
      none⟩),
    (str "tags",
     ⟨true, none, some (str "$:/tags/ChangeNote"), none,
      str "Tags: Must include `$:/tags/ChangeNote`, found: `{value}`",
      none⟩),
    (str "change-type",
     ⟨true, none, none, some .changeTypesN,
      str "Invalid change-type: `{value}` is not valid. Must be one of: `{validValues}`",
      some (str "Missing field: `change-type` is required. Valid values: `{validValues}`")⟩),
    (str "change-category",
     ⟨true, none, none, some .changeCategoriesN,
      str "Invalid change-category: `{value}` is not valid. Must be one of: `{validValues}`",
      some (str "Missing field: `change-category` is required. Valid values: `{validValues}`")⟩),
    (str "description",
     ⟨true, none, none, none,
      str "Missing field: `description` is required",
      none⟩),
    (str "release",
     ⟨true, some .releaseP, none, none,
      str "Invalid release format: Expected `X.Y.Z` format, found: `{value}`",
      some (str "Missing field: `release` is required (e.g., `5.4.0`)")⟩),
    (str "github-links",
     ⟨true, none, none, none,
      str "Missing field: `github-links` is required",
      none⟩),
    (str "github-contributors",
     ⟨true, none, none, none,
      str "Missing field: `github-contributors` is required",
      none⟩) ]

/-- `CONFIG.impactNoteFields`, in object-literal declaration order. -/
def impactNoteFields : List (Str × FieldConfig) :=
  [ (str "title",
     ⟨true, some .impactTitleP, none, none,
      str "Title format: Expected `$:/changenotes/<version>/<change-id>/impacts/<identifier>`, found: `{value}`",
      none⟩),
    (str "tags",
     ⟨true, none, some (str "$:/tags/ImpactNote"), none,
      str "Tags: Must include `$:/tags/ImpactNote`, found: `{value}`",
      none⟩),
    (str "impact-type",
     ⟨true, none, none, some .impactTypesN,
      str "Invalid impact-type: `{value}` is not valid. Must be one of: `{validValues}`",
      some (str "Missing field: `impact-type` is required. Valid values: `{validValues}`")⟩),
    (str "changenote",
     ⟨true, none, none, none,
      str "Missing field: `changenote` is required (the title of the associated change note)",
      none⟩),
    (str "description",
     ⟨true, none, none, none,
      str "Missing field: `description` is required",
      none⟩),
    (str "created",
     ⟨true, none, none, none,
      str "Missing field: `created` is required (in DateFormat, e.g., `20250901000000000`)",
      none⟩),
    (str "modified",
     ⟨true, none, none, none,
      str "Missing field: `modified` is required (in DateFormat, e.g., `20250901000000000`)",
      none⟩) ]

/-- `validateChangeNote(fields, fileErrors, releasesInfo)`: validate each
schema field in declaration order, collecting the pushed messages. -/
def validateChangeNote (flds : Fields) (ri : ReleasesInfo) : List Str :=
  changeNoteFields.filterMap (fun p => validateField (getField flds p.1) p.2 ri)

/-- `validateImpactNote(fields, fileErrors, releasesInfo)`. -/
def validateImpactNote (flds : Fields) (ri : ReleasesInfo) : List Str :=
  impactNoteFields.filterMap (fun p => validateField (getField flds p.1) p.2 ri)

/-! ## File-set classification (`checkNeedsChangeNote` and `CONFIG.skipPatterns`) -/

/-- `suf` is a suffix of `s` (used for the `$`-anchored regex tails). -/
def endsWithStr (s suf : Str) : Bool :=
  startsWith (List.drop (s.length - suf.length) s) suf

/-- `l` contains the character `c`. -/
def hasChar (l : Str) (c : Char) : Bool := l.any (fun x => x = c)

/-- `/^bin\/.*\.md$/.test(f)`: `bin/` prefix, `.md` suffix, and no newline in
the region matched by `.*`. -/
def binMdTest (f : Str) : Bool :=
  startsWith f (str "bin/") && endsWithStr f (str ".md") &&
    !hasChar (List.take (f.length - 7) (List.drop 4 f)) '\n'

/-- The scan behind `/^editions\/.*-docs?\//`: look, after the `editions/`
prefix, for a `-doc/` or `-docs/` occurrence not preceded by a newline. -/
def docsScan : Str → Bool
  | [] => false
  | c :: cs =>
    if startsWith (c :: cs) (str "-doc/") then true
    else if startsWith (c :: cs) (str "-docs/") then true
    else if c = '\n' then false
    else docsScan cs

/-- `/^editions\/.*-docs?\//.test(f)`. -/
def editionsDocsTest (f : Str) : Bool :=
  startsWith f (str "editions/") && docsScan (List.drop 9 f)

/-- `CONFIG.skipPatterns.some(pattern => pattern.test(file))`, with the twelve
patterns of the configuration in order. -/
def skipAny (f : Str) : Bool :=
  startsWith f (str ".github/") ||
  startsWith f (str ".vscode/") ||
  f = str ".editorconfig" ||
  f = str ".gitignore" ||
  f = str "LICENSE" ||
  endsWithStr f (str ".md") ||
  binMdTest f ||
  startsWith f (str "playwright-report/") ||
  startsWith f (str "test-results/") ||
  editionsDocsTest f ||
  startsWith f (str "community/") ||
  occursB (str "/releasenotes/") f

/-- The tail check of `/^editions\/.*\/tiddlers\/.*\.tid$/`: everything after
`/tiddlers/` must be a newline-free run ending in `.tid`. -/
def tidTail (r : Str) : Bool :=
  endsWithStr r (str ".tid") && !hasChar (List.take (r.length - 4) r) '\n'

/-- The scan behind `/^editions\/.*\/tiddlers\/.*\.tid$/`: find a
`/tiddlers/` occurrence not preceded by a newline whose tail satisfies
`tidTail`; later occurrences are tried when an earlier tail fails. -/
def tiddlersScan : Str → Bool
  | [] => false
  | c :: cs =>
    (if startsWith (c :: cs) (str "/tiddlers/") then tidTail (List.drop 10 (c :: cs))
     else false)
    || (if c = '\n' then false else tiddlersScan cs)

/-- `/^editions\/.*\/tiddlers\/.*\.tid$/.test(f)`. -/
def editionsTidTest (f : Str) : Bool :=
  startsWith f (str "editions/") && tiddlersScan (List.drop 9 f)

/-- `CONFIG.requiresChangeNote.some(pattern => pattern.test(file))`:
`/\/(core|plugin\.info|modules)\//`. -/
def requiresNote (f : Str) : Bool :=
  occursB (str "/core/") f || occursB (str "/plugin.info/") f ||
    occursB (str "/modules/") f

/-- `checkNeedsChangeNote(files)`: skip-listed files are ignored, editions
tiddlers need a note only when they match the requires pattern, and any
other file forces `true`. -/
def checkNeedsChangeNote : List Str → Bool
  | [] => false
  | f :: rest =>
    if skipAny f then checkNeedsChangeNote rest
    else if editionsTidTest f then
      if requiresNote f then true else checkNeedsChangeNote rest
    else true

/-! ## Whole-file validation (`validateChangeNotesFromContent`) -/

/-- The scan behind the release-notes filter `/editions\/.*\/tiddlers\/releasenotes\//`:
after an `editions/` occurrence, look for `/tiddlers/releasenotes/` with no
intervening newline. -/
def relNotesScan : Str → Bool
  | [] => false
  | c :: cs =>
    if startsWith (c :: cs) (str "/tiddlers/releasenotes/") then true
    else if c = '\n' then false
    else relNotesScan cs

/-- `/editions\/.*\/tiddlers\/releasenotes\//.test(f)` (unanchored: the
`editions/` occurrence may start anywhere). -/
def relNotesMatch : Str → Bool
  | [] => false
  | c :: cs =>
    (if startsWith (c :: cs) (str "editions/") then relNotesScan (List.drop 9 (c :: cs))
     else false)
    || relNotesMatch cs

/-- One caption pattern of `CONFIG.releasesInfoPatterns`, e.g.
`/^change-types\/([^/]+)\/caption:/`: on success the captured group (the
maximal non-empty slash-free run after the prefix). -/
def captionMatch (pre line : Str) : Option Str :=
  if startsWith line pre then
    let rest := List.drop pre.length line
    let g := rest.takeWhile (fun c => !(c = '/'))
    if g.isEmpty then none
    else if startsWith (List.drop g.length rest) (str "/caption:") then some g
    else none
  else none

/-- `Set.add` followed by `Array.from`: append only if not yet present. -/
def insertIfNew (l : List Str) (x : Str) : List Str :=
  if listMem l x then l else l ++ [x]

/-- The line loop shared by `loadReleasesInfo` and
`parseReleasesInfoContent`. -/
def releasesInfoLoop : List Str → ReleasesInfo → ReleasesInfo
  | [], ri => ri
  | line :: rest, ri =>
    let ri :=
      match captionMatch (str "change-types/") line with
      | some g => { ri with changeTypes := insertIfNew ri.changeTypes g }
      | none => ri
    let ri :=
      match captionMatch (str "categories/") line with
      | some g => { ri with changeCategories := insertIfNew ri.changeCategories g }
      | none => ri
    let ri :=
      match captionMatch (str "impact-types/") line with
      | some g => { ri with impactTypes := insertIfNew ri.impactTypes g }
      | none => ri
    releasesInfoLoop rest ri

/-- `parseReleasesInfoContent(content)`. -/
def parseReleasesInfoContent (content : Str) : ReleasesInfo :=
  releasesInfoLoop (jsSplit '\n' content) ⟨[], [], []⟩

/-- The hard issue recorded when a tiddler file cannot be parsed. -/
def fileNotFoundMsg : Str := str "File not found or cannot be read"

/-- One error entry of a `ValidationResult`. -/
structure FileErrors where
  file : Str
  issues : List Str

/-- `if (fileErrors.length > 0) errors.push({ file, issues })`: an entry only
when at least one issue accumulated. -/
def entryIfIssues (f : Str) (issues : List Str) : Option FileErrors :=
  if issues.isEmpty then none else some ⟨f, issues⟩

/-- The tag dispatch of the loop body: `tags.includes` decides which schema
applies; neither tag means the file is skipped. -/
def taggedEntry (ri : ReleasesInfo) (f : Str) (flds : Fields) : Option FileErrors :=
  if occursB (str "$:/tags/ChangeNote") ((getField flds (str "tags")).getD []) then
    entryIfIssues f (validateChangeNote flds ri)
  else if occursB (str "$:/tags/ImpactNote") ((getField flds (str "tags")).getD []) then
    entryIfIssues f (validateImpactNote flds ri)
  else none

/-- The body of the `for` loop of `validateChangeNotesFromContent` for one
`[file, content]` pair: `none` when the file contributes no entry. -/
def noteEntry (ri : ReleasesInfo) (f c : Str) : Option FileErrors :=
  if relNotesMatch f then
    match parseTiddlerContent c with
    | none => some ⟨f, [fileNotFoundMsg]⟩
    | some flds => taggedEntry ri f flds
  else none

/-- The overall result `{ success, errors }`. -/
structure ValidationResult where
  success : Bool
  errors : List FileErrors

/-- `validateChangeNotesFromContent(fileContents, releasesInfoContent)`:
`fileContents` is modelled as the ordered `Object.entries` list. -/
def validateChangeNotesFromContent (fcs : List (Str × Str)) (riContent : Str) :
    ValidationResult :=
  let ri := parseReleasesInfoContent riContent
  let errs := fcs.filterMap (fun p => noteEntry ri p.1 p.2)
  ⟨errs.isEmpty, errs⟩

/-! ## Helper lemmas -/

/-- A scan that finds no span leaves the text untouched (replacement). -/
theorem spanReplaceGo_no_span (S E repl text : Str)
    (h : containsSpan S E text = false) :
    ∀ fuel, spanReplaceGo S E repl fuel text = text := by
  intro fuel
  cases fuel with
  | zero => rfl
  | succ n =>
    cases hm : findMarker S text with
    | none => simp [spanReplaceGo, hm]
    | some i =>
      cases hm2 : findMarker E (List.drop (i + S.length) text) with
      | none => simp [spanReplaceGo, hm, hm2]
      | some j => exfalso; simp [containsSpan, hm, hm2] at h

/-- A scan that finds no span leaves the text untouched (removal). -/
theorem removeSpansGo_no_span (S E text : Str)
    (h : containsSpan S E text = false) :
    ∀ fuel, removeSpansGo S E fuel text = text := by
  intro fuel
  cases fuel with
  | zero => rfl
  | succ n =>
    cases hm : findMarker S text with
    | none => simp [removeSpansGo, hm]
    | some i =>
      cases hm2 : findMarker E (List.drop (i + S.length) text) with
      | none => simp [removeSpansGo, hm, hm2]
      | some j => exfalso; simp [containsSpan, hm, hm2] at h

/-- Messages accumulated by the rule loop: the matched rules of the prefix up
to and including the first stopping match, decorated with `"\n\n"`. -/
theorem applyRulesLoop_messages (b : Str) (fs : List Str) :
    ∀ rules : List Rule,
      (applyRulesLoop b fs rules).1 =
        ((takeThrough (fun r => r.condition b fs && r.stopProcessing) rules).filter
            (fun r => r.condition b fs)).map (fun r => nl2 ++ r.message) := by
  intro rules
  induction rules with
  | nil => rfl
  | cons r rest ih =>
    by_cases hc : r.condition b fs = true
    · by_cases hs : r.stopProcessing = true
      · simp [applyRulesLoop, takeThrough, hc, hs, List.filter]
      · have hs' : r.stopProcessing = false := by simpa using hs
        simp [applyRulesLoop, takeThrough, hc, hs', List.filter, ih]
    · have hc' : r.condition b fs = false := by simpa using hc
      simp [applyRulesLoop, takeThrough, hc', ih]

/-- The abort flag: some rule both matches and stops. -/
theorem applyRulesLoop_abort (b : Str) (fs : List Str) :
    ∀ rules : List Rule,
      (applyRulesLoop b fs rules).2 =
        rules.any (fun r => r.condition b fs && r.stopProcessing) := by
  intro rules
  induction rules with
  | nil => rfl
  | cons r rest ih =>
    by_cases hc : r.condition b fs = true
    · by_cases hs : r.stopProcessing = true
      · simp [applyRulesLoop, hc, hs]
      · have hs' : r.stopProcessing = false := by simpa using hs
        simp [applyRulesLoop, hc, hs', ih]
    · have hc' : r.condition b fs = false := by simpa using hc
      simp [applyRulesLoop, hc', ih]

/-- Rules behind a matching stop rule never influence the loop. -/
theorem applyRulesLoop_stop_frame (b : Str) (fs : List Str) :
    ∀ (pre : List Rule) (r : Rule) (post post' : List Rule),
      r.condition b fs = true → r.stopProcessing = true →
      applyRulesLoop b fs (pre ++ r :: post) = applyRulesLoop b fs (pre ++ r :: post') := by
  intro pre
  induction pre with
  | nil =>
    intro r post post' hc hs
    simp [applyRulesLoop, hc, hs]
  | cons q rest ih =>
    intro r post post' hc hs
    by_cases hqc : q.condition b fs = true
    · by_cases hqs : q.stopProcessing = true
      · simp [applyRulesLoop, hqc, hqs]
      · have hqs' : q.stopProcessing = false := by simpa using hqs
        simp [applyRulesLoop, hqc, hqs', ih r post post' hc hs]
    · have hqc' : q.condition b fs = false := by simpa using hqc
      simp [applyRulesLoop, hqc', ih r post post' hc hs]

/-! ## Occurrence lemmas for the span scan -/

/-- `startsWith l p` holds exactly when `p` heads `l`. -/
theorem startsWith_iff (l p : Str) : startsWith l p = true ↔ ∃ t, l = p ++ t := by
  induction p generalizing l with
  | nil =>
    constructor
    · intro _; exact ⟨l, rfl⟩
    · intro _; cases l <;> rfl
  | cons a ps ih =>
    cases l with
    | nil =>
      simp [startsWith]
    | cons c cs =>
      by_cases hca : c = a
      · subst hca
        have hred : startsWith (c :: cs) (c :: ps) = startsWith cs ps := by
          simp [startsWith]
        rw [hred, ih cs]
        constructor
        · rintro ⟨t, rfl⟩; exact ⟨t, rfl⟩
        · rintro ⟨t, ht⟩
          exact ⟨t, by injection ht⟩
      · simp [startsWith, hca]

/-- A list headed by `p` satisfies the check. -/
theorem startsWith_append_self (p t : Str) : startsWith (p ++ t) p = true :=
  (startsWith_iff _ _).mpr ⟨t, rfl⟩

/-- A match over a concatenation either sits inside the left part or
straddles into the right part, consuming the whole left remainder. -/
theorem startsWith_split (a b pat : Str) (h : startsWith (a ++ b) pat = true) :
    (pat.length ≤ a.length ∧ startsWith a pat = true) ∨
    (a.length < pat.length ∧ a = List.take a.length pat ∧
       startsWith b (List.drop a.length pat) = true) := by
  obtain ⟨t, ht⟩ := (startsWith_iff _ _).mp h
  by_cases hl : pat.length ≤ a.length
  · left
    refine ⟨hl, (startsWith_iff _ _).mpr ⟨List.drop pat.length a, ?_⟩⟩
    have h1 : List.take pat.length (a ++ b) = List.take pat.length a := by
      rw [List.take_append_eq_append_take]
      have hz : pat.length - a.length = 0 := by omega
      rw [hz]
      simp
    rw [ht] at h1
    rw [List.take_left] at h1
    conv_lhs => rw [← List.take_append_drop pat.length a]
    rw [← h1]
  · push_neg at hl
    right
    have h1 : a = List.take a.length pat := by
      have hta := congrArg (List.take a.length) ht
      rw [List.take_append_eq_append_take, List.take_append_eq_append_take] at hta
      have hz : a.length - pat.length = 0 := by omega
      simpa [hz] using hta
    have h2 : b = List.drop a.length pat ++ t := by
      have hda := congrArg (List.drop a.length) ht
      rw [List.drop_append_eq_append_drop, List.drop_append_eq_append_drop] at hda
      have hz : a.length - pat.length = 0 := by omega
      simpa [hz] using hda
    exact ⟨hl, h1, (startsWith_iff _ _).mpr ⟨t, h2⟩⟩

/-- A pattern no longer than the left part matches there already. -/
theorem startsWith_append_of_le (u v pat : Str) (h : startsWith (u ++ v) pat = true)
    (hl : pat.length ≤ u.length) : startsWith u pat = true := by
  rcases startsWith_split u v pat h with ⟨_, h2⟩ | ⟨hlt, _, _⟩
  · exact h2
  · omega

/-- `findMarker` soundness: the reported index carries a match and is the
leftmost one. -/
theorem findMarker_some_sound (pat : Str) : ∀ (text : Str) (i : Nat),
    findMarker pat text = some i →
    startsWith (List.drop i text) pat = true ∧
      ∀ k, k < i → startsWith (List.drop k text) pat = false := by
  intro text
  induction text with
  | nil =>
    intro i h
    by_cases hsw : startsWith [] pat = true
    · rw [findMarker, if_pos hsw] at h
      obtain rfl : i = 0 := by injection h with h'; omega
      exact ⟨by simpa using hsw, fun k hk => absurd hk (by omega)⟩
    · rw [findMarker, if_neg hsw] at h
      cases h
  | cons c cs ih =>
    intro i h
    by_cases hsw : startsWith (c :: cs) pat = true
    · rw [findMarker, if_pos hsw] at h
      obtain rfl : i = 0 := by injection h with h'; omega
      exact ⟨by simpa using hsw, fun k hk => absurd hk (by omega)⟩
    · rw [findMarker, if_neg hsw] at h
      cases hm : findMarker pat cs with
      | none => rw [hm] at h; cases h
      | some j =>
        rw [hm] at h
        simp only [Option.map_some', Option.some.injEq] at h
        obtain ⟨hs1, hs2⟩ := ih j hm
        subst h
        refine ⟨by simpa using hs1, ?_⟩
        intro k hk
        cases k with
        | zero => simpa using hsw
        | succ k' => simpa using hs2 k' (by omega)

/-- `findMarker` completeness: a leftmost match is reported. -/
theorem findMarker_eq_some_of (pat : Str) : ∀ (text : Str) (i : Nat),
    startsWith (List.drop i text) pat = true →
    (∀ k, k < i → startsWith (List.drop k text) pat = false) →
    findMarker pat text = some i := by
  intro text
  induction text with
  | nil =>
    intro i h1 h2
    have h1' : startsWith [] pat = true := by simpa using h1
    have hi : i = 0 := by
      by_contra hne
      have h0 := h2 0 (by omega)
      rw [List.drop_nil] at h0
      rw [h1'] at h0
      cases h0
    subst hi
    rw [findMarker, if_pos h1']
  | cons c cs ih =>
    intro i h1 h2
    cases i with
    | zero =>
      rw [List.drop_zero] at h1
      rw [findMarker, if_pos h1]
    | succ i' =>
      have h0 : startsWith (c :: cs) pat = false := by simpa using h2 0 (by omega)
      rw [findMarker, if_neg (by simp [h0])]
      have hrec := ih i' (by simpa using h1) (fun k hk => by simpa using h2 (k + 1) (by omega))
      rw [hrec]
      rfl

/-- A match anywhere certifies an occurrence. -/
theorem occursB_true_of (pat : Str) : ∀ (text : Str) (k : Nat),
    startsWith (List.drop k text) pat = true → occursB pat text = true := by
  intro text
  induction text with
  | nil =>
    intro k h
    have h' : startsWith [] pat = true := by simpa using h
    simp [occursB, findMarker, h']
  | cons c cs ih =>
    intro k h
    by_cases hsw : startsWith (c :: cs) pat = true
    · simp [occursB, findMarker, hsw]
    · cases k with
      | zero => rw [List.drop_zero] at h; rw [h] at hsw; cases hsw rfl
      | succ k' =>
        have := ih k' (by simpa using h)
        simp only [occursB, findMarker, if_neg hsw, Option.isSome_map]
        simpa [occursB] using this

/-- Occurrence as existence of a match position. -/
theorem occursB_true_iff (pat text : Str) :
    occursB pat text = true ↔ ∃ k, startsWith (List.drop k text) pat = true := by
  constructor
  · intro h
    unfold occursB at h
    cases hm : findMarker pat text with
    | none => rw [hm] at h; cases h
    | some i => exact ⟨i, (findMarker_some_sound pat text i hm).1⟩
  · rintro ⟨k, hk⟩
    exact occursB_true_of pat text k hk

/-- Non-occurrence as absence of matches at every position. -/
theorem occursB_false_iff (pat text : Str) :
    occursB pat text = false ↔ ∀ k, startsWith (List.drop k text) pat = false := by
  constructor
  · intro h k
    by_contra hbad
    rw [Bool.not_eq_false] at hbad
    have := occursB_true_of pat text k hbad
    rw [h] at this
    cases this
  · intro h
    by_contra hbad
    rw [Bool.not_eq_false] at hbad
    obtain ⟨k, hk⟩ := (occursB_true_iff pat text).mp hbad
    rw [h k] at hk
    cases hk

/-- Every position of `u`, continued by `v`, fails to match `pat` when `pat`
does not occur in `u` and every straddling residue fails against `v`. -/
theorem startsWith_append_all_false (u v pat : Str)
    (hu : occursB pat u = false)
    (hside : ∀ d, 0 < d → d < pat.length → d ≤ u.length →
       List.drop (u.length - d) u = List.take d pat →
       startsWith v (List.drop d pat) = false) :
    ∀ k, k < u.length → startsWith (List.drop k u ++ v) pat = false := by
  intro k hk
  by_contra hbad
  rw [Bool.not_eq_false] at hbad
  rcases startsWith_split (List.drop k u) v pat hbad with ⟨_, hsw⟩ | ⟨hlt, heq, hsw⟩
  · have hfalse := (occursB_false_iff pat u).mp hu k
    rw [hfalse] at hsw
    cases hsw
  · have hd : (List.drop k u).length = u.length - k := List.length_drop k u
    have h0 : 0 < (List.drop k u).length := by omega
    have hdu : (List.drop k u).length ≤ u.length := by omega
    have heq' : List.drop (u.length - (List.drop k u).length) u =
        List.take (List.drop k u).length pat := by
      have hku : u.length - (u.length - k) = k := by omega
      rw [hd, hku]
      rw [hd] at heq
      exact heq
    have := hside (List.drop k u).length h0 (by omega) hdu heq'
    rw [this] at hsw
    cases hsw

/-- Occurrence-freeness is preserved under concatenation when straddling
residues fail and the right part is occurrence-free. -/
theorem no_occur_seg (u v pat : Str)
    (hu : occursB pat u = false)
    (hside : ∀ d, 0 < d → d < pat.length → d ≤ u.length →
       List.drop (u.length - d) u = List.take d pat →
       startsWith v (List.drop d pat) = false)
    (hv : occursB pat v = false) :
    occursB pat (u ++ v) = false := by
  rw [occursB_false_iff]
  intro k
  by_cases hk : k < u.length
  · have hdrop : List.drop k (u ++ v) = List.drop k u ++ v := by
      rw [List.drop_append_eq_append_drop]
      have hz : k - u.length = 0 := by omega
      rw [hz, List.drop_zero]
    rw [hdrop]
    exact startsWith_append_all_false u v pat hu hside k hk
  · have hdrop : List.drop k (u ++ v) = List.drop (k - u.length) v := by
      rw [List.drop_append_eq_append_drop]
      have hnil : List.drop k u = [] := List.drop_eq_nil_of_le (by omega)
      rw [hnil, List.nil_append]
    rw [hdrop]
    exact (occursB_false_iff pat v).mp hv _

/-- The first occurrence of a non-self-overlapping pattern in
`u ++ pat ++ rest`, with `pat` absent from `u`, is exactly at `u.length`. -/
theorem findMarker_concat (pat u rest : Str)
    (hu : occursB pat u = false)
    (hso : ∀ d, 0 < d → d < pat.length → startsWith pat (List.drop d pat) = false) :
    findMarker pat (u ++ (pat ++ rest)) = some u.length := by
  apply findMarker_eq_some_of
  · rw [List.drop_left]
    exact startsWith_append_self pat rest
  · intro k hk
    have hdrop : List.drop k (u ++ (pat ++ rest)) = List.drop k u ++ (pat ++ rest) := by
      rw [List.drop_append_eq_append_drop]
      have hz : k - u.length = 0 := by omega
      rw [hz, List.drop_zero]
    rw [hdrop]
    refine startsWith_append_all_false u (pat ++ rest) pat hu ?_ k hk
    intro d h0 hdp _ _
    by_contra hbad
    rw [Bool.not_eq_false] at hbad
    have hlen : (List.drop d pat).length ≤ pat.length := by
      rw [List.length_drop]; omega
    have hsw := startsWith_append_of_le pat rest _ hbad hlen
    rw [hso d h0 hdp] at hsw
    cases hsw

/-- A text without the start marker has no span. -/
theorem containsSpan_false_of_no_start (S E t : Str) (h : occursB S t = false) :
    containsSpan S E t = false := by
  unfold occursB at h
  unfold containsSpan
  cases hm : findMarker S t with
  | none => rfl
  | some i => rw [hm] at h; cases h

/-- A span exists exactly when some start-marker occurrence is followed by an
end-marker occurrence. -/
theorem containsSpan_true_iff (S E t : Str) :
    containsSpan S E t = true ↔
      ∃ u, startsWith (List.drop u t) S = true ∧
        occursB E (List.drop (u + S.length) t) = true := by
  constructor
  · intro h
    unfold containsSpan at h
    cases hm : findMarker S t with
    | none => rw [hm] at h; cases h
    | some i =>
      rw [hm] at h
      exact ⟨i, (findMarker_some_sound S t i hm).1, h⟩
  · rintro ⟨u, hsw, hocc⟩
    unfold containsSpan
    cases hm : findMarker S t with
    | none =>
      have hno : occursB S t = false := by unfold occursB; rw [hm]; rfl
      have := (occursB_false_iff S t).mp hno u
      rw [this] at hsw
      cases hsw
    | some i =>
      obtain ⟨hi1, hi2⟩ := findMarker_some_sound S t i hm
      have hiu : i ≤ u := by
        by_contra hgt
        have := hi2 u (by omega)
        rw [this] at hsw
        cases hsw
      obtain ⟨j, hj⟩ := (occursB_true_iff E _).mp hocc
      rw [List.drop_drop] at hj
      have hglobal : startsWith
          (List.drop ((j + (u + S.length)) - (i + S.length)) (List.drop (i + S.length) t)) E
          = true := by
        rw [List.drop_drop]
        have harith : i + S.length + ((j + (u + S.length)) - (i + S.length)) =
            u + S.length + j := by omega
        rw [harith]
        exact hj
      exact occursB_true_of E _ _ hglobal

/-- Suffixes of span-free text are span-free. -/
theorem containsSpan_drop_false (S E t : Str) (n : Nat)
    (h : containsSpan S E t = false) :
    containsSpan S E (List.drop n t) = false := by
  by_contra hbad
  rw [Bool.not_eq_false] at hbad
  obtain ⟨u, hsw, hocc⟩ := (containsSpan_true_iff S E _).mp hbad
  rw [List.drop_drop] at hsw
  have htrue : containsSpan S E t = true := by
    refine (containsSpan_true_iff S E t).mpr ⟨n + u, hsw, ?_⟩
    rw [List.drop_drop] at hocc
    have harith : n + (u + S.length) = n + u + S.length := by omega
    rw [harith] at hocc
    exact hocc
  rw [h] at htrue
  cases htrue

/-- `dropWhile` is a suffix. -/
theorem exists_dropWhile_drop (p : Char → Bool) (l : Str) :
    ∃ n, List.dropWhile p l = List.drop n l := by
  induction l with
  | nil => exact ⟨0, rfl⟩
  | cons c cs ih =>
    by_cases hc : p c = true
    · obtain ⟨n, hn⟩ := ih
      exact ⟨n + 1, by simp [List.dropWhile, hc, hn]⟩
    · exact ⟨0, by simp [List.dropWhile, hc]⟩

/-- Span-freeness survives `dropWhile`. -/
theorem containsSpan_dropWhile_false (S E t : Str) (p : Char → Bool)
    (h : containsSpan S E t = false) :
    containsSpan S E (List.dropWhile p t) = false := by
  obtain ⟨n, hn⟩ := exists_dropWhile_drop p t
  rw [hn]
  exact containsSpan_drop_false S E t n h

/-! ## Single-span computations for the path-validation markers -/

/-- The start marker never overlaps a shifted copy of itself. -/
theorem startNoSelfOv : ∀ d, d < PATH_VALIDATION_SECTION_START.length → 0 < d →
    startsWith PATH_VALIDATION_SECTION_START
      (List.drop d PATH_VALIDATION_SECTION_START) = false := by decide

/-- The end marker never overlaps a shifted copy of itself. -/
theorem endNoSelfOv : ∀ d, d < PATH_VALIDATION_SECTION_END.length → 0 < d →
    startsWith PATH_VALIDATION_SECTION_END
      (List.drop d PATH_VALIDATION_SECTION_END) = false := by decide

/-- No tail of the end marker begins with a newline. -/
theorem nlBlock_end : ∀ d, d < PATH_VALIDATION_SECTION_END.length →
    startsWith ['\n'] (List.drop d PATH_VALIDATION_SECTION_END) = false := by decide

/-- No tail of the start marker begins with the blank-line separator. -/
theorem nl2Block_start : ∀ d, d < PATH_VALIDATION_SECTION_START.length →
    startsWith nl2 (List.drop d PATH_VALIDATION_SECTION_START) = false := by decide

/-- The end marker does not occur in a lone newline. -/
theorem occursB_end_nl : occursB PATH_VALIDATION_SECTION_END ['\n'] = false := by decide

/-- The start marker does not occur in the blank-line separator. -/
theorem occursB_start_nl2 : occursB PATH_VALIDATION_SECTION_START nl2 = false := by decide

/-- A lone newline is never the residue of a split end marker. -/
theorem no_nl_take_end : ∀ d, d < PATH_VALIDATION_SECTION_END.length → 0 < d → d ≤ 1 →
    ¬ (List.drop (1 - d) ['\n'] =
        List.take d PATH_VALIDATION_SECTION_END) := by decide

/-- The newline-wrapped section content `"\n" ++ c ++ "\n"`. -/
def wrapNl (c : Str) : Str := '\n' :: (c ++ ['\n'])

/-- `sectionedMessage` in marker-decomposed form. -/
theorem sectionedMessage_decomp (c : Str) :
    sectionedMessage c =
      PATH_VALIDATION_SECTION_START ++
        (wrapNl c ++ (PATH_VALIDATION_SECTION_END ++ [])) := by
  simp [sectionedMessage, wrapNl]

/-- Wrapping marker-free content in newlines keeps it end-marker-free. -/
theorem occursB_end_wrap (c : Str)
    (hc : occursB PATH_VALIDATION_SECTION_END c = false) :
    occursB PATH_VALIDATION_SECTION_END (wrapNl c) = false := by
  have step1 : occursB PATH_VALIDATION_SECTION_END (c ++ ['\n']) = false := by
    refine no_occur_seg c ['\n'] _ hc ?_ occursB_end_nl
    intro d _ hd _ _
    exact nlBlock_end d hd
  have hw : wrapNl c = ['\n'] ++ (c ++ ['\n']) := by simp [wrapNl]
  rw [hw]
  refine no_occur_seg ['\n'] (c ++ ['\n']) _ occursB_end_nl ?_ step1
  intro d h0 hd hdu heq
  exact absurd heq (no_nl_take_end d hd h0 (by simpa using hdu))

/-- Appending the blank-line separator keeps a body start-marker-free. -/
theorem occursB_start_append_nl2 (body : Str)
    (hb : occursB PATH_VALIDATION_SECTION_START body = false) :
    occursB PATH_VALIDATION_SECTION_START (body ++ nl2) = false := by
  refine no_occur_seg body nl2 _ hb ?_ occursB_start_nl2
  intro d _ hd _ _
  exact nl2Block_start d hd

/-- The first start-marker occurrence in a single-span decomposition is at
the end of the preceding text. -/
theorem findMarker_start_single (p m q : Str)
    (hp : occursB PATH_VALIDATION_SECTION_START p = false) :
    findMarker PATH_VALIDATION_SECTION_START
      (p ++ (PATH_VALIDATION_SECTION_START ++
        (m ++ (PATH_VALIDATION_SECTION_END ++ q)))) = some p.length :=
  findMarker_concat _ p _ hp (fun d h0 hd => startNoSelfOv d hd h0)

/-- The first end-marker occurrence after the span opening is at the end of
the enclosed content. -/
theorem findMarker_end_inner (m q : Str)
    (hm : occursB PATH_VALIDATION_SECTION_END m = false) :
    findMarker PATH_VALIDATION_SECTION_END
      (m ++ (PATH_VALIDATION_SECTION_END ++ q)) = some m.length :=
  findMarker_concat _ m q hm (fun d h0 hd => endNoSelfOv d hd h0)

/-- Dropping the first two blocks of a three-block concatenation. -/
theorem drop_len_two (a b rest : Str) :
    List.drop (a.length + b.length) (a ++ (b ++ rest)) = rest := by
  rw [← List.append_assoc]
  exact List.drop_left' (by simp)

/-- A single-span body contains a span. -/
theorem containsSpan_single (p m q : Str)
    (hp : occursB PATH_VALIDATION_SECTION_START p = false)
    (hm : occursB PATH_VALIDATION_SECTION_END m = false) :
    containsSpan PATH_VALIDATION_SECTION_START PATH_VALIDATION_SECTION_END
      (p ++ (PATH_VALIDATION_SECTION_START ++
        (m ++ (PATH_VALIDATION_SECTION_END ++ q)))) = true := by
  have h1 : List.drop (p.length + PATH_VALIDATION_SECTION_START.length)
      (p ++ (PATH_VALIDATION_SECTION_START ++
        (m ++ (PATH_VALIDATION_SECTION_END ++ q)))) =
      m ++ (PATH_VALIDATION_SECTION_END ++ q) := drop_len_two p _ _
  simp only [containsSpan, findMarker_start_single p m q hp, h1,
    findMarker_end_inner m q hm, Option.isSome_some]

/-- Replacing the unique span of a single-span body, at any positive fuel. -/
theorem spanReplaceGo_single (repl p m q : Str)
    (hp : occursB PATH_VALIDATION_SECTION_START p = false)
    (hm : occursB PATH_VALIDATION_SECTION_END m = false)
    (hq : containsSpan PATH_VALIDATION_SECTION_START PATH_VALIDATION_SECTION_END q
      = false) :
    ∀ fuel, 0 < fuel →
      spanReplaceGo PATH_VALIDATION_SECTION_START PATH_VALIDATION_SECTION_END repl fuel
        (p ++ (PATH_VALIDATION_SECTION_START ++
          (m ++ (PATH_VALIDATION_SECTION_END ++ q)))) =
      p ++ (repl ++ q) := by
  intro fuel hf
  obtain ⟨f, rfl⟩ : ∃ f, fuel = f + 1 := ⟨fuel - 1, by omega⟩
  have h1 : List.drop (p.length + PATH_VALIDATION_SECTION_START.length)
      (p ++ (PATH_VALIDATION_SECTION_START ++
        (m ++ (PATH_VALIDATION_SECTION_END ++ q)))) =
      m ++ (PATH_VALIDATION_SECTION_END ++ q) := drop_len_two p _ _
  have h2 : List.drop (m.length + PATH_VALIDATION_SECTION_END.length)
      (m ++ (PATH_VALIDATION_SECTION_END ++ q)) = q := drop_len_two m _ _
  have h3 : List.take p.length
      (p ++ (PATH_VALIDATION_SECTION_START ++
        (m ++ (PATH_VALIDATION_SECTION_END ++ q)))) = p := List.take_left p _
  simp only [spanReplaceGo, findMarker_start_single p m q hp, h1,
    findMarker_end_inner m q hm, h2, h3, spanReplaceGo_no_span _ _ repl q hq f]
  simp [List.append_assoc]

/-- Replacing the unique span of a single-span body. -/
theorem spanReplace_single (repl p m q : Str)
    (hp : occursB PATH_VALIDATION_SECTION_START p = false)
    (hm : occursB PATH_VALIDATION_SECTION_END m = false)
    (hq : containsSpan PATH_VALIDATION_SECTION_START PATH_VALIDATION_SECTION_END q
      = false) :
    spanReplace PATH_VALIDATION_SECTION_START PATH_VALIDATION_SECTION_END repl
      (p ++ (PATH_VALIDATION_SECTION_START ++
        (m ++ (PATH_VALIDATION_SECTION_END ++ q)))) =
    p ++ (repl ++ q) := by
  have hS : 0 < PATH_VALIDATION_SECTION_START.length := by decide
  have hlen : 0 < (p ++ (PATH_VALIDATION_SECTION_START ++
      (m ++ (PATH_VALIDATION_SECTION_END ++ q)))).length := by
    simp only [List.length_append]
    omega
  exact spanReplaceGo_single repl p m q hp hm hq _ hlen

/-- Removing the unique span of a single-span body, at any positive fuel. -/
theorem removeSpansGo_single (p m q : Str)
    (hp : occursB PATH_VALIDATION_SECTION_START p = false)
    (hm : occursB PATH_VALIDATION_SECTION_END m = false)
    (hq : containsSpan PATH_VALIDATION_SECTION_START PATH_VALIDATION_SECTION_END q
      = false) :
    ∀ fuel, 0 < fuel →
      removeSpansGo PATH_VALIDATION_SECTION_START PATH_VALIDATION_SECTION_END fuel
        (p ++ (PATH_VALIDATION_SECTION_START ++
          (m ++ (PATH_VALIDATION_SECTION_END ++ q)))) =
      p ++ List.dropWhile (fun c => c = '\n') q := by
  intro fuel hf
  obtain ⟨f, rfl⟩ : ∃ f, fuel = f + 1 := ⟨fuel - 1, by omega⟩
  have h1 : List.drop (p.length + PATH_VALIDATION_SECTION_START.length)
      (p ++ (PATH_VALIDATION_SECTION_START ++
        (m ++ (PATH_VALIDATION_SECTION_END ++ q)))) =
      m ++ (PATH_VALIDATION_SECTION_END ++ q) := drop_len_two p _ _
  have h2 : List.drop (m.length + PATH_VALIDATION_SECTION_END.length)
      (m ++ (PATH_VALIDATION_SECTION_END ++ q)) = q := drop_len_two m _ _
  have h3 : List.take p.length
      (p ++ (PATH_VALIDATION_SECTION_START ++
        (m ++ (PATH_VALIDATION_SECTION_END ++ q)))) = p := List.take_left p _
  have hq' : containsSpan PATH_VALIDATION_SECTION_START PATH_VALIDATION_SECTION_END
      (List.dropWhile (fun c => c = '\n') q) = false :=
    containsSpan_dropWhile_false _ _ q _ hq
  simp only [removeSpansGo, findMarker_start_single p m q hp, h1,
    findMarker_end_inner m q hm, h2, h3,
    removeSpansGo_no_span _ _ _ hq' f]

/-- Removing the unique span of a single-span body. -/
theorem removeSpans_single (p m q : Str)
    (hp : occursB PATH_VALIDATION_SECTION_START p = false)
    (hm : occursB PATH_VALIDATION_SECTION_END m = false)
    (hq : containsSpan PATH_VALIDATION_SECTION_START PATH_VALIDATION_SECTION_END q
      = false) :
    removeSpans PATH_VALIDATION_SECTION_START PATH_VALIDATION_SECTION_END
      (p ++ (PATH_VALIDATION_SECTION_START ++
        (m ++ (PATH_VALIDATION_SECTION_END ++ q)))) =
    p ++ List.dropWhile (fun c => c = '\n') q := by
  have hS : 0 < PATH_VALIDATION_SECTION_START.length := by decide
  have hlen : 0 < (p ++ (PATH_VALIDATION_SECTION_START ++
      (m ++ (PATH_VALIDATION_SECTION_END ++ q)))).length := by
    simp only [List.length_append]
    omega
  exact removeSpansGo_single p m q hp hm hq _ hlen

/-! ## Claims -/

/-- A rule whose condition always holds and which does not stop. -/
def ruleAlways : Rule := ⟨str "always", fun _ _ => true, str "m", false⟩

/-- A rule whose condition always holds and which stops processing. -/
def ruleStopper : Rule := ⟨str "stopper", fun _ _ => true, str "s", true⟩

/-- C1 counterexample: for a single always-matching rule, the accumulated
message is `"\n\n" ++ rule.message`, not `rule.message` itself, so the
evaluator does not append `rule.message` to the output as claimed. -/
theorem C1_counterexample :
    (applyRulesLoop (str "master") [] [ruleAlways]).1 ≠ [ruleAlways.message] ∧
    (applyRulesLoop (str "master") [] [ruleAlways]).1 = [nl2 ++ ruleAlways.message] := by
  exact ⟨by decide, by decide⟩

/-- C1 (amended): the evaluator iterates the rules in list order, appends
`"\n\n" ++ rule.message` to the output exactly when `rule.condition` returns
true, stops immediately at a matched rule with `stopProcessing` (the
remaining rules are never evaluated), and returns the accumulated messages
together with whether such an abort occurred. -/
theorem C1_rule_evaluation :
    (∀ (b : Str) (fs : List Str) (rules : List Rule),
       (applyRulesLoop b fs rules).1 =
         ((takeThrough (fun r => r.condition b fs && r.stopProcessing) rules).filter
             (fun r => r.condition b fs)).map (fun r => nl2 ++ r.message)) ∧
    (∀ (b : Str) (fs : List Str) (rules : List Rule),
       (applyRulesLoop b fs rules).2 =
         rules.any (fun r => r.condition b fs && r.stopProcessing)) ∧
    (∀ (b : Str) (fs : List Str) (pre : List Rule) (r : Rule) (post post' : List Rule),
       r.condition b fs = true → r.stopProcessing = true →
       applyRulesLoop b fs (pre ++ r :: post) = applyRulesLoop b fs (pre ++ r :: post')) :=
  ⟨fun b fs => applyRulesLoop_messages b fs,
   fun b fs => applyRulesLoop_abort b fs,
   fun b fs => applyRulesLoop_stop_frame b fs⟩

/-- C1 witness: a stopping rule makes the trailing rule irrelevant. -/
theorem C1_rule_evaluation_witness :
    applyRulesLoop (str "b") [] [ruleStopper, ruleAlways] =
      applyRulesLoop (str "b") [] [ruleStopper] :=
  C1_rule_evaluation.2.2 (str "b") [] [] ruleStopper [ruleAlways] [] rfl rfl

/-- C2 counterexample: on a malformed body consisting of a bare start marker
(no end marker), the first reconciliation appends, and the second one
swallows the dangling marker: the two results differ, so reconciliation with
the same content twice is not idempotent for every body. -/
theorem C2_counterexample :
    replaceOrAppendSection
        (replaceOrAppendSection PATH_VALIDATION_SECTION_START (sectionedMessage (str "X")))
        (sectionedMessage (str "X")) ≠
      replaceOrAppendSection PATH_VALIDATION_SECTION_START (sectionedMessage (str "X")) := by
  decide

/-- C2 (amended): reconciliation with the same non-empty, marker-free content
twice is a no-op on the second pass, for bodies without the start marker
(append case) and for bodies with a single well-formed span — start marker
absent from the preceding text, end marker absent from the span content, no
further span behind it (replace case). -/
theorem C2_reconcile_idempotent :
    ∀ (body c p m q : Str),
      c ≠ [] →
      occursB PATH_VALIDATION_SECTION_START c = false →
      occursB PATH_VALIDATION_SECTION_END c = false →
      ((occursB PATH_VALIDATION_SECTION_START body = false →
          replaceOrAppendSection (replaceOrAppendSection body (sectionedMessage c))
              (sectionedMessage c) =
            replaceOrAppendSection body (sectionedMessage c)) ∧
       (body = p ++ (PATH_VALIDATION_SECTION_START ++
            (m ++ (PATH_VALIDATION_SECTION_END ++ q))) →
        occursB PATH_VALIDATION_SECTION_START p = false →
        occursB PATH_VALIDATION_SECTION_END m = false →
        containsSpan PATH_VALIDATION_SECTION_START PATH_VALIDATION_SECTION_END q = false →
        replaceOrAppendSection (replaceOrAppendSection body (sectionedMessage c))
            (sectionedMessage c) =
          replaceOrAppendSection body (sectionedMessage c))) := by
  intro body c p m q _hcne hcS hcE
  have hm' : occursB PATH_VALIDATION_SECTION_END (wrapNl c) = false :=
    occursB_end_wrap c hcE
  constructor
  · intro hb
    have hnospan : containsSpan PATH_VALIDATION_SECTION_START PATH_VALIDATION_SECTION_END
        body = false := containsSpan_false_of_no_start _ _ _ hb
    have happ1 : replaceOrAppendSection body (sectionedMessage c) =
        body ++ nl2 ++ sectionedMessage c := by
      simp only [replaceOrAppendSection, hnospan, Bool.false_eq_true, if_false]
    rw [happ1]
    have hp' : occursB PATH_VALIDATION_SECTION_START (body ++ nl2) = false :=
      occursB_start_append_nl2 body hb
    have hq0 : containsSpan PATH_VALIDATION_SECTION_START PATH_VALIDATION_SECTION_END
        ([] : Str) = false := by decide
    have hshape : body ++ nl2 ++ sectionedMessage c =
        (body ++ nl2) ++ (PATH_VALIDATION_SECTION_START ++
          (wrapNl c ++ (PATH_VALIDATION_SECTION_END ++ []))) := by
      rw [sectionedMessage_decomp]
    have hcs2 := containsSpan_single (body ++ nl2) (wrapNl c) [] hp' hm'
    rw [hshape]
    simp only [replaceOrAppendSection, hcs2, if_true]
    rw [spanReplace_single (sectionedMessage c) (body ++ nl2) (wrapNl c) [] hp' hm' hq0]
    rw [sectionedMessage_decomp]
    simp
  · intro hbody hp hm hq
    subst hbody
    have hcs1 := containsSpan_single p m q hp hm
    have happ1 : replaceOrAppendSection
        (p ++ (PATH_VALIDATION_SECTION_START ++
          (m ++ (PATH_VALIDATION_SECTION_END ++ q)))) (sectionedMessage c) =
        p ++ (sectionedMessage c ++ q) := by
      simp only [replaceOrAppendSection, hcs1, if_true]
      exact spanReplace_single (sectionedMessage c) p m q hp hm hq
    rw [happ1]
    have hshape : p ++ (sectionedMessage c ++ q) =
        p ++ (PATH_VALIDATION_SECTION_START ++
          (wrapNl c ++ (PATH_VALIDATION_SECTION_END ++ q))) := by
      rw [sectionedMessage_decomp]
      simp [List.append_assoc]
    rw [hshape]
    have hcs2 := containsSpan_single p (wrapNl c) q hp hm'
    simp only [replaceOrAppendSection, hcs2, if_true]
    rw [spanReplace_single (sectionedMessage c) p (wrapNl c) q hp hm' hq]
    exact hshape

/-- C2 witness: a body with one well-formed span, reconciled twice with
content `Y`. -/
theorem C2_reconcile_idempotent_witness :
    replaceOrAppendSection
        (replaceOrAppendSection
          (str "A" ++ (PATH_VALIDATION_SECTION_START ++
            (str "\nX\n" ++ (PATH_VALIDATION_SECTION_END ++ []))))
          (sectionedMessage (str "Y")))
        (sectionedMessage (str "Y")) =
      replaceOrAppendSection
        (str "A" ++ (PATH_VALIDATION_SECTION_START ++
          (str "\nX\n" ++ (PATH_VALIDATION_SECTION_END ++ []))))
        (sectionedMessage (str "Y")) :=
  (C2_reconcile_idempotent _ (str "Y") (str "A") (str "\nX\n") []
      (by decide) (by decide) (by decide)).2 rfl (by decide) (by decide) (by decide)

/-- A well-formed span with content `A`. -/
def spanA : Str :=
  PATH_VALIDATION_SECTION_START ++ (str "\nA\n" ++ PATH_VALIDATION_SECTION_END)

/-- C4 counterexample: on a body holding two spans of the same section, the
global regex replaces both, so the text outside the first (leftmost) span is
not preserved byte-for-byte. -/
theorem C4_counterexample :
    replaceOrAppendSection (spanA ++ (str "Z" ++ spanA)) (sectionedMessage (str "B")) ≠
      sectionedMessage (str "B") ++ (str "Z" ++ spanA) ∧
    replaceOrAppendSection (spanA ++ (str "Z" ++ spanA)) (sectionedMessage (str "B")) =
      sectionedMessage (str "B") ++ (str "Z" ++ sectionedMessage (str "B")) := by
  exact ⟨by decide, by decide⟩

/-- C4 (amended): when the body holds a single well-formed span, replacement
is in place and all bytes outside the span are preserved; without a span the
body is preserved as a prefix and the section appended; removal of a single
span keeps the outside bytes except the newline run following the span and
the final trim of the whole body. -/
theorem C4_section_frame :
    ∀ (body c p m q : Str),
      ((body = p ++ (PATH_VALIDATION_SECTION_START ++
            (m ++ (PATH_VALIDATION_SECTION_END ++ q))) →
        occursB PATH_VALIDATION_SECTION_START p = false →
        occursB PATH_VALIDATION_SECTION_END m = false →
        containsSpan PATH_VALIDATION_SECTION_START PATH_VALIDATION_SECTION_END q = false →
        c ≠ [] →
        replaceOrAppendSection body (sectionedMessage c) =
          p ++ (sectionedMessage c ++ q)) ∧
       (containsSpan PATH_VALIDATION_SECTION_START PATH_VALIDATION_SECTION_END body
          = false →
        replaceOrAppendSection body (sectionedMessage c) =
          body ++ nl2 ++ sectionedMessage c) ∧
       (body = p ++ (PATH_VALIDATION_SECTION_START ++
            (m ++ (PATH_VALIDATION_SECTION_END ++ q))) →
        occursB PATH_VALIDATION_SECTION_START p = false →
        occursB PATH_VALIDATION_SECTION_END m = false →
        containsSpan PATH_VALIDATION_SECTION_START PATH_VALIDATION_SECTION_END q = false →
        removeSection body PATH_VALIDATION_SECTION_START PATH_VALIDATION_SECTION_END =
          jsTrim (p ++ List.dropWhile (fun ch => ch = '\n') q))) := by
  intro body c p m q
  refine ⟨?_, ?_, ?_⟩
  · intro hbody hp hm hq _hc
    subst hbody
    have hcs1 := containsSpan_single p m q hp hm
    simp only [replaceOrAppendSection, hcs1, if_true]
    exact spanReplace_single (sectionedMessage c) p m q hp hm hq
  · intro hnospan
    simp only [replaceOrAppendSection, hnospan, Bool.false_eq_true, if_false]
  · intro hbody hp hm hq
    subst hbody
    rw [removeSection, removeSpans_single p m q hp hm hq]

/-- C4 witness: in-place replacement on a concrete single-span body. -/
theorem C4_section_frame_witness :
    replaceOrAppendSection
        (str "before" ++ (PATH_VALIDATION_SECTION_START ++
          (str "\nOLD\n" ++ (PATH_VALIDATION_SECTION_END ++ str "\nafter"))))
        (sectionedMessage (str "NEW")) =
      str "before" ++ (sectionedMessage (str "NEW") ++ str "\nafter") :=
  (C4_section_frame _ (str "NEW") (str "before") (str "\nOLD\n") (str "\nafter")).1
    rfl (by decide) (by decide) (by decide) (by decide)

/-- C3: starting from no comment, reconciling with content `X` and then `Y`
yields the fresh comment for `Y`: exactly one section span, whose content is
`Y`, and exactly one occurrence of the Cerebrus identifier. -/
theorem C3_round_trip :
    replaceOrAppendSection (freshComment (str "X")) (sectionedMessage (str "Y")) =
        freshComment (str "Y") ∧
    countSpans PATH_VALIDATION_SECTION_START PATH_VALIDATION_SECTION_END
        (replaceOrAppendSection (freshComment (str "X")) (sectionedMessage (str "Y"))) = 1 ∧
    countOccur CEREBRUS_IDENTIFIER
        (replaceOrAppendSection (freshComment (str "X")) (sectionedMessage (str "Y"))) = 1 := by
  refine ⟨by decide, by decide, by decide⟩

/-- C5: a body with a start marker but no end marker after it (malformed) has
no span, so reconciliation falls back to appending the new section. -/
theorem C5_malformed_append (body c : Str) (i : Nat)
    (_hc : c ≠ [])
    (h1 : findMarker PATH_VALIDATION_SECTION_START body = some i)
    (h2 : findMarker PATH_VALIDATION_SECTION_END
        (List.drop (i + PATH_VALIDATION_SECTION_START.length) body) = none) :
    replaceOrAppendSection body (sectionedMessage c) =
      body ++ nl2 ++ sectionedMessage c := by
  simp [replaceOrAppendSection, containsSpan, h1, h2]

/-- C5 witness: a bare start marker is treated by appending. -/
theorem C5_malformed_append_witness :
    replaceOrAppendSection PATH_VALIDATION_SECTION_START (sectionedMessage (str "X")) =
      PATH_VALIDATION_SECTION_START ++ nl2 ++ sectionedMessage (str "X") :=
  C5_malformed_append PATH_VALIDATION_SECTION_START (str "X") 0
    (by decide) (by decide) (by decide)

/-- C6 counterexample: a span-free body ending in a newline is changed by
`removeSection` (the final `trim()` strips the newline), so removal is not a
byte-for-byte no-op. -/
theorem C6_counterexample :
    containsSpan PATH_VALIDATION_SECTION_START PATH_VALIDATION_SECTION_END
        (CEREBRUS_IDENTIFIER ++ ['\n']) = false ∧
    removeSection (CEREBRUS_IDENTIFIER ++ ['\n'])
        PATH_VALIDATION_SECTION_START PATH_VALIDATION_SECTION_END ≠
      CEREBRUS_IDENTIFIER ++ ['\n'] := by
  exact ⟨by decide, by decide⟩

/-- C6 (amended): on a body with no section span, `removeSection` returns the
trimmed body; it is the unchanged body exactly when the body carries no
leading or trailing whitespace. -/
theorem C6_remove_no_span (body : Str)
    (h : containsSpan PATH_VALIDATION_SECTION_START PATH_VALIDATION_SECTION_END body = false) :
    removeSection body PATH_VALIDATION_SECTION_START PATH_VALIDATION_SECTION_END =
        jsTrim body ∧
    (jsTrim body = body →
      removeSection body PATH_VALIDATION_SECTION_START PATH_VALIDATION_SECTION_END = body) := by
  have hb : removeSection body PATH_VALIDATION_SECTION_START PATH_VALIDATION_SECTION_END =
      jsTrim body := by
    unfold removeSection removeSpans
    rw [removeSpansGo_no_span _ _ _ h]
  exact ⟨hb, fun ht => by rw [hb, ht]⟩

/-- C6 witness: a trim-stable span-free body is returned unchanged. -/
theorem C6_remove_no_span_witness :
    removeSection (str "x") PATH_VALIDATION_SECTION_START PATH_VALIDATION_SECTION_END =
        jsTrim (str "x") ∧
    (jsTrim (str "x") = str "x" →
      removeSection (str "x") PATH_VALIDATION_SECTION_START PATH_VALIDATION_SECTION_END =
        str "x") :=
  C6_remove_no_span (str "x") (by decide)

/-- The per-field validation sequence as the specification words it: (a) a
required absent/empty value yields the missing message (error message as
fallback) with `validValues` interpolated when applicable; (b) an absent or
empty optional value is skipped; otherwise (c) a declared failing pattern,
then (d) a declared missing `contains` substring, then (e) a declared
enumeration the value does not belong to — each yields the error message and
stops, with (e) listing the valid set joined by `", "`. -/
def validateFieldSpec (v : Option Str) (cfg : FieldConfig) (ri : ReleasesInfo) : Option Str :=
  let absent : Bool := match v with | none => true | some s => s.isEmpty
  if cfg.required && absent then some (missingFieldMessage v cfg ri)
  else if absent then none
  else
    let s := v.getD []
    if cfg.pattern.any (fun pn => !patternTest pn s) then
      some (interpolateMessage cfg.errorMessage (some s) none)
    else if cfg.contains.any (fun sub => !occursB sub s) then
      some (interpolateMessage cfg.errorMessage (some s) none)
    else
      match cfg.validValues with
      | some n =>
        if listMem (vvGet ri n) s then none
        else some (interpolateMessage cfg.errorMessage (some s)
                     (some (joinSep (vvGet ri n) (str ", "))))
      | none => none

/-- Enumeration sets for the concrete change-note example. -/
def relInfoEx : ReleasesInfo := ⟨[str "feature"], [str "core"], [str "breaking"]⟩

/-- A ChangeNote field map with valid title, tags, change-type and
change-category, but with `description` and `release` missing. -/
def changeNoteMissingRelease : Fields :=
  [(str "title", str "$:/changenotes/5.4.0/#9999"),
   (str "tags", str "$:/tags/ChangeNote"),
   (str "change-type", str "feature"),
   (str "change-category", str "core"),
   (str "github-links", str "x"),
   (str "github-contributors", str "y")]

/-- C7: `validateField` checks each field exactly in the specified order
(refinement against the spec-worded `validateFieldSpec`), and a ChangeNote
missing `release` yields an issue containing the substring `release` while
the other missing field (`description`) is still reported. -/
theorem C7_field_validation :
    (∀ (v : Option Str) (cfg : FieldConfig) (ri : ReleasesInfo),
        validateField v cfg ri = validateFieldSpec v cfg ri) ∧
    validateChangeNote changeNoteMissingRelease relInfoEx =
      [str "Missing field: `description` is required",
       str "Missing field: `release` is required (e.g., `5.4.0`)"] ∧
    (validateChangeNote changeNoteMissingRelease relInfoEx).any
        (fun m => occursB (str "release") m) = true := by
  refine ⟨?_, by decide, by decide⟩
  intro v cfg ri
  obtain ⟨req, pat, con, vv, err, miss⟩ := cfg
  cases v with
  | none => cases req <;> simp [validateField, validateFieldSpec]
  | some s =>
    by_cases he : s.isEmpty = true
    · cases req <;> simp [validateField, validateFieldSpec, he]
    · have he' : s.isEmpty = false := by simpa using he
      have base :
          validateField (some s) ⟨req, pat, con, vv, err, miss⟩ ri =
            checkPattern s ⟨req, pat, con, vv, err, miss⟩ ri := by
        simp [validateField, he']
      rw [base]
      cases pat with
      | some pn =>
        cases ht : patternTest pn s with
        | false => simp [checkPattern, validateFieldSpec, he', ht]
        | true =>
          cases con with
          | some sub =>
            cases ho : occursB sub s with
            | false => simp [checkPattern, checkContains, validateFieldSpec, he', ht, ho]
            | true =>
              cases vv with
              | some n =>
                cases hm : listMem (vvGet ri n) s <;>
                  simp [checkPattern, checkContains, checkValidValues,
                        validateFieldSpec, he', ht, ho, hm]
              | none =>
                simp [checkPattern, checkContains, checkValidValues,
                      validateFieldSpec, he', ht, ho]
          | none =>
            cases vv with
            | some n =>
              cases hm : listMem (vvGet ri n) s <;>
                simp [checkPattern, checkContains, checkValidValues,
                      validateFieldSpec, he', ht, hm]
            | none =>
              simp [checkPattern, checkContains, checkValidValues,
                    validateFieldSpec, he', ht]
      | none =>
        cases con with
        | some sub =>
          cases ho : occursB sub s with
          | false => simp [checkPattern, checkContains, validateFieldSpec, he', ho]
          | true =>
            cases vv with
            | some n =>
              cases hm : listMem (vvGet ri n) s <;>
                simp [checkPattern, checkContains, checkValidValues,
                      validateFieldSpec, he', ho, hm]
            | none =>
              simp [checkPattern, checkContains, checkValidValues,
                    validateFieldSpec, he', ho]
        | none =>
          cases vv with
          | some n =>
            cases hm : listMem (vvGet ri n) s <;>
              simp [checkPattern, checkContains, checkValidValues,
                    validateFieldSpec, he', hm]
          | none =>
            simp [checkPattern, checkContains, checkValidValues,
                  validateFieldSpec, he']

/-- Header-only parsing: every pattern-matching `key: value` line becomes a
field, in order, with later duplicates overwriting. -/
def headerFold : List Str → Fields → Fields
  | [], acc => acc
  | l :: rest, acc =>
    match headerMatch l with
    | some (k, v) => headerFold rest (setField acc k v)
    | none => headerFold rest acc

/-- `takeWhile` passes over a block whose elements all satisfy the predicate. -/
theorem takeWhile_all_append (p : Char → Bool) (l₁ l₂ : Str)
    (h : ∀ c ∈ l₁, p c = true) :
    List.takeWhile p (l₁ ++ l₂) = l₁ ++ List.takeWhile p l₂ := by
  induction l₁ with
  | nil => simp
  | cons c cs ih =>
    have hc : p c = true := h c (by simp)
    simp only [List.cons_append, List.takeWhile_cons, hc, if_pos]
    rw [ih (fun x hx => h x (by simp [hx]))]

/-- On lines above the first blank one, `parseLoop` is header-only parsing. -/
theorem parseLoop_no_blank (ls : List Str) :
    ∀ acc : Fields, (∀ l ∈ ls, (jsTrim l).isEmpty = false) →
      parseLoop ls acc = headerFold ls acc := by
  induction ls with
  | nil => intro acc _; rfl
  | cons l rest ih =>
    intro acc hh
    have hl : (jsTrim l).isEmpty = false := hh l (by simp)
    have hh' : ∀ x ∈ rest, (jsTrim x).isEmpty = false := fun x hx => hh x (by simp [hx])
    cases hm : headerMatch l with
    | some kv => simp [parseLoop, headerFold, hl, hm, ih _ hh']
    | none => simp [parseLoop, headerFold, hl, hm, ih _ hh']

/-- `parseLoop` splits at the first blank line: headers before it, the body
(joined by newline and trimmed) stored under `text`. -/
theorem parseLoop_split (b : Str) (rest : List Str) (hb : (jsTrim b).isEmpty = true) :
    ∀ (hs : List Str) (acc : Fields), (∀ l ∈ hs, (jsTrim l).isEmpty = false) →
      parseLoop (hs ++ b :: rest) acc =
        setField (headerFold hs acc) textKey (jsTrim (joinSep rest (str "\n"))) := by
  intro hs
  induction hs with
  | nil => intro acc _; simp [parseLoop, headerFold, hb]
  | cons l hs ih =>
    intro acc hh
    have hl : (jsTrim l).isEmpty = false := hh l (by simp)
    have hh' : ∀ x ∈ hs, (jsTrim x).isEmpty = false := fun x hx => hh x (by simp [hx])
    cases hm : headerMatch l with
    | some kv =>
      simp only [List.cons_append, parseLoop, hl, Bool.false_eq_true, if_false, hm,
        headerFold]
      exact ih _ hh'
    | none =>
      simp only [List.cons_append, parseLoop, hl, Bool.false_eq_true, if_false, hm,
        headerFold]
      exact ih _ hh'

/-- Reading back a just-written field yields the new value (last wins). -/
theorem getField_setField (flds : Fields) (k v : Str) :
    getField (setField flds k v) k = some v := by
  induction flds with
  | nil => simp [setField, getField]
  | cons p rest ih =>
    by_cases hk : p.1 = k
    · simp [setField, getField, hk]
    · simp [setField, getField, hk, ih]

/-- The field name of a matching header line is everything before the first
colon, the value the remainder with leading whitespace stripped. -/
theorem headerMatch_split (name rest : Str) (hn : name ≠ [])
    (hc : hasChar name ':' = false) :
    headerMatch (name ++ ':' :: rest) = some (name, rest.dropWhile isJsWs) := by
  have hall : ∀ c ∈ name, (!(c = ':')) = true := by
    intro c hcm
    have hne : ¬ c = ':' := by
      intro hceq
      have hgood : hasChar name ':' = true := by
        simp only [hasChar, List.any_eq_true]
        exact ⟨c, hcm, by simp [hceq]⟩
      rw [hgood] at hc
      exact Bool.noConfusion hc
    simp [hne]
  have ht : List.takeWhile (fun c => !(c = ':')) (name ++ ':' :: rest) = name := by
    rw [takeWhile_all_append _ _ _ hall]
    simp [List.takeWhile_cons]
  simp [headerMatch, ht, hn, List.drop_left]

/-- C8: `parseTiddlerContent` is absent exactly on empty input; otherwise it
parses the newline-split lines, splitting at the first blank-after-trim line
with the remainder joined and trimmed into `text`; without a blank line only
header parsing happens; header lines split at the first colon; and a
duplicate field name overwrites the earlier value. -/
theorem C8_parse_tiddler :
    (∀ c : Str, parseTiddlerContent c = none ↔ c = []) ∧
    (∀ c : Str, c ≠ [] → parseTiddlerContent c = some (parseLoop (jsSplit '\n' c) [])) ∧
    (∀ (hs : List Str) (b : Str) (rest : List Str),
       (∀ l ∈ hs, (jsTrim l).isEmpty = false) → (jsTrim b).isEmpty = true →
       parseLoop (hs ++ b :: rest) [] =
         setField (headerFold hs []) textKey (jsTrim (joinSep rest (str "\n")))) ∧
    (∀ ls : List Str, (∀ l ∈ ls, (jsTrim l).isEmpty = false) →
       parseLoop ls [] = headerFold ls []) ∧
    (∀ name rest : Str, name ≠ [] → hasChar name ':' = false →
       headerMatch (name ++ ':' :: rest) = some (name, rest.dropWhile isJsWs)) ∧
    (∀ (flds : Fields) (k v : Str), getField (setField flds k v) k = some v) := by
  refine ⟨?_, ?_, ?_, ?_, ?_, ?_⟩
  · intro c; simp [parseTiddlerContent, List.isEmpty_iff]
  · intro c hcne; simp [parseTiddlerContent, List.isEmpty_iff, hcne]
  · intro hs b rest hh hb; exact parseLoop_split b rest hb hs [] hh
  · intro ls hh; exact parseLoop_no_blank ls [] hh
  · intro name rest hn hc; exact headerMatch_split name rest hn hc
  · intro flds k v; exact getField_setField flds k v

/-- C8 witness: a one-header file with a blank line and a body. -/
theorem C8_parse_tiddler_witness :
    parseLoop ([str "a: 1"] ++ [] :: [str "body"]) [] =
      setField (headerFold [str "a: 1"] []) textKey
        (jsTrim (joinSep [str "body"] (str "\n"))) :=
  C8_parse_tiddler.2.2.1 [str "a: 1"] [] [str "body"] (by decide) (by decide)

/-- A template whose first character can neither start an interpolation nor
be the `F` of the file-not-found issue. -/
def headOK (t : Str) : Bool :=
  match t with
  | [] => false
  | c :: _ => !(c = '{') && !(c = 'F')

/-- Both messages of a field configuration satisfy `headOK`. -/
def cfgOK (cfg : FieldConfig) : Bool :=
  headOK cfg.errorMessage &&
    (match cfg.missingMessage with
     | some mm => headOK mm
     | none => true)

/-- Interpolation preserves a leading non-`{` character. -/
theorem interp_head (c : Char) (rest : Str) (v vv : Option Str)
    (hc : ¬ c = '{') :
    interpolateMessage (c :: rest) v vv = c :: interpGo v vv rest.length rest := by
  simp [interpolateMessage, interpGo, hc]

/-- A `headOK` template never interpolates to the file-not-found issue. -/
theorem interp_ne_fnf (t : Str) (v vv : Option Str) (h : headOK t = true) :
    interpolateMessage t v vv ≠ fileNotFoundMsg := by
  match t with
  | [] => simp [headOK] at h
  | c :: rest =>
    simp only [headOK, Bool.and_eq_true, Bool.not_eq_true'] at h
    rw [interp_head c rest v vv (of_decide_eq_false h.1)]
    intro hEq
    have hF : fileNotFoundMsg = 'F' :: str "ile not found or cannot be read" := by decide
    rw [hF] at hEq
    have hcF : c = 'F' := ((List.cons.injEq _ _ _ _).mp hEq).1
    exact (of_decide_eq_false h.2) hcF

/-- Any message produced by the `validValues` check is an interpolation of
the error message. -/
theorem checkValidValues_shape (s : Str) (cfg : FieldConfig) (ri : ReleasesInfo)
    (m : Str) (h : checkValidValues s cfg ri = some m) :
    ∃ a b, m = interpolateMessage cfg.errorMessage a b := by
  cases hv : cfg.validValues with
  | none => simp [checkValidValues, hv] at h
  | some n =>
    by_cases hm2 : listMem (vvGet ri n) s = true
    · simp [checkValidValues, hv, hm2] at h
    · simp only [checkValidValues, hv, hm2, Bool.false_eq_true, if_false,
        Option.some.injEq, Bool.not_eq_true] at h
      exact ⟨_, _, h.symm⟩

/-- Any message produced by the `contains` check (or later) is an
interpolation of the error message. -/
theorem checkContains_shape (s : Str) (cfg : FieldConfig) (ri : ReleasesInfo)
    (m : Str) (h : checkContains s cfg ri = some m) :
    ∃ a b, m = interpolateMessage cfg.errorMessage a b := by
  cases hc : cfg.contains with
  | none => exact checkValidValues_shape s cfg ri m (by simpa [checkContains, hc] using h)
  | some sub =>
    by_cases ho : occursB sub s = true
    · exact checkValidValues_shape s cfg ri m (by simpa [checkContains, hc, ho] using h)
    · simp only [checkContains, hc, ho, Bool.false_eq_true, if_false,
        Option.some.injEq, Bool.not_eq_true] at h
      exact ⟨_, _, h.symm⟩

/-- Any message produced by the `pattern` check (or later) is an
interpolation of the error message. -/
theorem checkPattern_shape (s : Str) (cfg : FieldConfig) (ri : ReleasesInfo)
    (m : Str) (h : checkPattern s cfg ri = some m) :
    ∃ a b, m = interpolateMessage cfg.errorMessage a b := by
  cases hp : cfg.pattern with
  | none => exact checkContains_shape s cfg ri m (by simpa [checkPattern, hp] using h)
  | some pn =>
    by_cases ht : patternTest pn s = true
    · exact checkContains_shape s cfg ri m (by simpa [checkPattern, hp, ht] using h)
    · simp only [checkPattern, hp, ht, Bool.false_eq_true, if_false,
        Option.some.injEq, Bool.not_eq_true] at h
      exact ⟨_, _, h.symm⟩

/-- Any message pushed by `validateField` interpolates one of the two
configured templates. -/
theorem validateField_shape (v : Option Str) (cfg : FieldConfig) (ri : ReleasesInfo)
    (m : Str) (h : validateField v cfg ri = some m) :
    (∃ a b, m = interpolateMessage (cfg.missingMessage.getD cfg.errorMessage) a b) ∨
    (∃ a b, m = interpolateMessage cfg.errorMessage a b) := by
  cases v with
  | none =>
    by_cases hr : cfg.required = true
    · simp only [validateField, hr, if_true, Option.some.injEq] at h
      exact Or.inl ⟨_, _, h.symm⟩
    · simp [validateField, hr] at h
  | some s =>
    by_cases he : s.isEmpty = true
    · by_cases hr : cfg.required = true
      · simp only [validateField, he, hr, if_true, Option.some.injEq] at h
        exact Or.inl ⟨_, _, h.symm⟩
      · simp [validateField, he, hr] at h
    · have he' : s.isEmpty = false := by simpa using he
      simp only [validateField, he', Bool.false_eq_true, if_false] at h
      exact Or.inr (checkPattern_shape s cfg ri m h)

/-- The error pushed by `validateField` for a well-headed configuration is
never the file-not-found issue. -/
theorem validateField_ne_fnf (v : Option Str) (cfg : FieldConfig) (ri : ReleasesInfo)
    (m : Str) (hok : cfgOK cfg = true) (h : validateField v cfg ri = some m) :
    m ≠ fileNotFoundMsg := by
  have hErr : headOK cfg.errorMessage = true := by
    simp only [cfgOK, Bool.and_eq_true] at hok
    exact hok.1
  have hMiss : headOK (cfg.missingMessage.getD cfg.errorMessage) = true := by
    simp only [cfgOK, Bool.and_eq_true] at hok
    cases hm : cfg.missingMessage with
    | none => simpa [hm] using hErr
    | some mm => rw [hm] at hok; simpa [hm] using hok.2
  rcases validateField_shape v cfg ri m h with ⟨a, b, hab⟩ | ⟨a, b, hab⟩
  · rw [hab]; exact interp_ne_fnf _ a b hMiss
  · rw [hab]; exact interp_ne_fnf _ a b hErr

/-- No change-note issue is the file-not-found issue. -/
theorem validateChangeNote_ne_fnf (flds : Fields) (ri : ReleasesInfo) :
    ∀ m ∈ validateChangeNote flds ri, m ≠ fileNotFoundMsg := by
  intro m hm
  obtain ⟨⟨k, cfg⟩, hmem, hv⟩ := List.mem_filterMap.mp hm
  have hall : changeNoteFields.all (fun p => cfgOK p.2) = true := by decide
  exact validateField_ne_fnf _ _ _ _ (List.all_eq_true.mp hall _ hmem) hv

/-- No impact-note issue is the file-not-found issue. -/
theorem validateImpactNote_ne_fnf (flds : Fields) (ri : ReleasesInfo) :
    ∀ m ∈ validateImpactNote flds ri, m ≠ fileNotFoundMsg := by
  intro m hm
  obtain ⟨⟨k, cfg⟩, hmem, hv⟩ := List.mem_filterMap.mp hm
  have hall : impactNoteFields.all (fun p => cfgOK p.2) = true := by decide
  exact validateField_ne_fnf _ _ _ _ (List.all_eq_true.mp hall _ hmem) hv

/-- A non-empty content never parses to `null`. -/
theorem parseTiddlerContent_isSome (c : Str) (h : c ≠ []) :
    (parseTiddlerContent c).isSome = true := by
  simp [parseTiddlerContent, List.isEmpty_iff, h]

/-- An issue list attached by `entryIfIssues` is the given one. -/
theorem entryIfIssues_issues (f : Str) (issues : List Str) (e : FileErrors)
    (h : entryIfIssues f issues = some e) : e.issues = issues := by
  by_cases hie : issues.isEmpty = true
  · simp [entryIfIssues, hie] at h
  · simp only [entryIfIssues, hie, Bool.false_eq_true, if_false,
      Option.some.injEq] at h
    rw [← h]

/-- An entry produced by the tag dispatch never carries the file-not-found
issue. -/
theorem taggedEntry_no_fnf (ri : ReleasesInfo) (f : Str) (flds : Fields)
    (e : FileErrors) (h : taggedEntry ri f flds = some e) :
    fileNotFoundMsg ∉ e.issues := by
  by_cases hcn : occursB (str "$:/tags/ChangeNote") ((getField flds (str "tags")).getD []) = true
  · rw [taggedEntry, if_pos hcn] at h
    rw [entryIfIssues_issues _ _ _ h]
    intro hmem
    exact validateChangeNote_ne_fnf flds ri _ hmem rfl
  · rw [taggedEntry, if_neg hcn] at h
    by_cases hin : occursB (str "$:/tags/ImpactNote") ((getField flds (str "tags")).getD []) = true
    · rw [if_pos hin] at h
      rw [entryIfIssues_issues _ _ _ h]
      intro hmem
      exact validateImpactNote_ne_fnf flds ri _ hmem rfl
    · rw [if_neg hin] at h
      exact absurd h (by simp)

/-- For readable content, the entry of one file never carries the
file-not-found issue. -/
theorem noteEntry_no_fnf (ri : ReleasesInfo) (f c : Str) (hc : c ≠ [])
    (e : FileErrors) (h : noteEntry ri f c = some e) :
    fileNotFoundMsg ∉ e.issues := by
  by_cases hrel : relNotesMatch f = true
  · rw [noteEntry, if_pos hrel] at h
    cases hp : parseTiddlerContent c with
    | none =>
      have hsome := parseTiddlerContent_isSome c hc
      rw [hp] at hsome
      exact Bool.noConfusion hsome
    | some flds =>
      rw [hp] at h
      exact taggedEntry_no_fnf ri f flds e h
  · rw [noteEntry, if_neg hrel] at h
    exact absurd h (by simp)

/-- A parsed file carrying neither note tag yields no entry. -/
theorem noteEntry_untagged (ri : ReleasesInfo) (f c : Str) (flds : Fields)
    (hp : parseTiddlerContent c = some flds)
    (hcn : occursB (str "$:/tags/ChangeNote") ((getField flds (str "tags")).getD []) = false)
    (hin : occursB (str "$:/tags/ImpactNote") ((getField flds (str "tags")).getD []) = false) :
    noteEntry ri f c = none := by
  by_cases hrel : relNotesMatch f = true
  · rw [noteEntry, if_pos hrel, hp]
    simp [taggedEntry, hcn, hin]
  · rw [noteEntry, if_neg hrel]

/-- C10: non-empty content always parses to a field map, so the
file-not-found issue is unreachable when all supplied contents are non-empty
strings, and a parsed release-notes file carrying neither note tag
contributes no entry to the error list. -/
theorem C10_parse_totality :
    (∀ c : Str, c ≠ [] → (parseTiddlerContent c).isSome = true) ∧
    (∀ (fcs : List (Str × Str)) (riC : Str),
       (∀ p ∈ fcs, p.2 ≠ ([] : Str)) →
       ∀ e ∈ (validateChangeNotesFromContent fcs riC).errors,
         fileNotFoundMsg ∉ e.issues) ∧
    (∀ (fcs₁ fcs₂ : List (Str × Str)) (f c riC : Str) (flds : Fields),
       parseTiddlerContent c = some flds →
       occursB (str "$:/tags/ChangeNote") ((getField flds (str "tags")).getD []) = false →
       occursB (str "$:/tags/ImpactNote") ((getField flds (str "tags")).getD []) = false →
       validateChangeNotesFromContent (fcs₁ ++ (f, c) :: fcs₂) riC =
         validateChangeNotesFromContent (fcs₁ ++ fcs₂) riC) := by
  refine ⟨parseTiddlerContent_isSome, ?_, ?_⟩
  · intro fcs riC hne e he
    simp only [validateChangeNotesFromContent] at he
    obtain ⟨p, hmem, hp⟩ := List.mem_filterMap.mp he
    exact noteEntry_no_fnf _ p.1 p.2 (hne p hmem) e hp
  · intro fcs₁ fcs₂ f c riC flds hp hcn hin
    simp only [validateChangeNotesFromContent, List.filterMap_append,
      List.filterMap_cons, noteEntry_untagged _ f c flds hp hcn hin]

/-- C10 witness: a concrete non-empty content parses to a field map. -/
theorem C10_parse_totality_witness :
    (parseTiddlerContent (str "x")).isSome = true :=
  C10_parse_totality.1 (str "x") (by decide)

/-- C9: `checkNeedsChangeNote` returns false exactly when every file is
skip-listed or is an editions tiddler not matching the requires pattern, and
the three concrete examples behave as specified. -/
theorem C9_check_needs_change_note :
    (∀ files : List Str,
       checkNeedsChangeNote files = false ↔
         ∀ f ∈ files, skipAny f = true ∨
           (editionsTidTest f = true ∧ requiresNote f = false)) ∧
    checkNeedsChangeNote [str "core/boot.js"] = true ∧
    checkNeedsChangeNote [str "README.md"] = false ∧
    checkNeedsChangeNote [str "editions/tw5.com/tiddlers/foo.tid"] = false := by
  refine ⟨?_, by decide, by decide, by decide⟩
  intro files
  induction files with
  | nil => simp [checkNeedsChangeNote]
  | cons f rest ih =>
    simp only [checkNeedsChangeNote, List.forall_mem_cons]
    cases h1 : skipAny f with
    | true => simp [h1, ih]
    | false =>
      cases h2 : editionsTidTest f with
      | false => simp [h2, ih]
      | true =>
        cases h3 : requiresNote f with
        | true => simp [h2, h3]
        | false => simp [h2, h3, ih]

end Cerebrus
